import Mathlib

/-
  Verification of the Roommate-Portal group ledger and settlement engine.

  The definitions below are a shallow embedding of the data model and the
  operations of the repository:

  * the MariaDB schema and the stored SQL functions COUNT_MEMBERS,
    SUM_EXPENSES and CALC_SHARE from setup/db-setup.sh, and
  * the API class (getTransactionRecords, calculateSettlements, joinGroup,
    leaveGroup, lockGroup, createGroup, addPurchase, addIncentive and the
    helper queries they use) from the TypeScript source.

  Modelling conventions:
  * Monetary amounts are integer cents (DECIMAL(p,2) columns).  The stored
    value x.yz is modeled as the natural number 100*x + yz.
  * Calendar dates (DATE columns) are naturals; concrete examples use the
    yyyymmdd encoding, whose numeric order agrees with calendar order.
  * SQL NOW() is an Instant: a day plus a time-of-day component, ordered
    lexicographically.  Comparing a DATE d with NOW() promotes d to
    midnight of that day, exactly as MariaDB does.
  * Usernames are modeled as natural-number codes standing for the VARCHAR
    values under the collation order used by ORDER BY Uname; the engine
    only ever uses equality and relative order of usernames.
  * Row sets returned by queries are lists; ORDER BY is insertion sort on
    the sort key.
  * Each inserted Purchases / Incentives row carries the value of a global
    insertion counter, which records the durable insert order that the
    spec talks about (cascade rows inserted before the purchase row).
-/

namespace RoommatePortal

/-- A row of the Users table (the columns the engine reads). -/
structure User where
  uid : Nat
  uname : Nat
  deriving DecidableEq, Repr

/-- A row of the Groups table. -/
structure GroupRow where
  gid : Nat
  name : String
  description : String
  status : String
  maxUsers : Option Nat
  deriving DecidableEq, Repr

/-- A row of the Memberships table: one continuous interval of activity. -/
structure MembershipRow where
  uid : Nat
  gid : Nat
  joined : Nat
  left : Option Nat
  deriving DecidableEq, Repr

/-- A row of the Purchases table.  The ins field is the insertion stamp. -/
structure Purchase where
  uid : Nat
  gid : Nat
  date : Nat
  store : String
  amount : Nat
  notes : String
  ins : Nat
  deriving DecidableEq, Repr

/-- A row of the IncentivesAvailable table (an incentive definition). -/
structure IncentiveDef where
  iid : Nat
  gid : Nat
  name : String
  description : String
  amount : Nat
  beginDay : Nat
  endDay : Option Nat
  onPurchase : Bool
  deriving DecidableEq, Repr

/-- A row of the Incentives table (an incentive realization). -/
structure IncentiveRow where
  uid : Nat
  iid : Nat
  date : Nat
  notes : String
  ins : Nat
  deriving DecidableEq, Repr

/-- The persisted store: the six tables the engine touches, plus the
insertion counter and a counter supplying fresh ids for UUID(). -/
structure DB where
  users : List User
  groups : List GroupRow
  memberships : List MembershipRow
  purchases : List Purchase
  incentivesAvailable : List IncentiveDef
  incentives : List IncentiveRow
  nextIns : Nat
  nextId : Nat
  deriving DecidableEq, Repr

/-- The wall clock: a calendar day plus a time-of-day offset inside it
(0 is midnight), ordered lexicographically. -/
structure Instant where
  day : Nat
  tod : Nat
  deriving DecidableEq, Repr

/-- SQL comparison date < NOW(): the date is promoted to its midnight. -/
def dateLtNow (d : Nat) (now : Instant) : Bool :=
  decide (d < now.day) || (d == now.day && decide (0 < now.tod))

/-- SQL comparison date > NOW(): the date is promoted to its midnight. -/
def dateGtNow (d : Nat) (now : Instant) : Bool :=
  decide (now.day < d)

/-- An InputError thrown by the API; only its stable title matters here. -/
structure InputError where
  title : String
  deriving DecidableEq, Repr

/-! ### Scalar helper queries of the API class -/

/-- SELECT EXISTS(SELECT * FROM Users WHERE Uname = ?). -/
def userExists (db : DB) (uname : Nat) : Bool :=
  db.users.any (fun u => u.uname == uname)

/-- SELECT EXISTS(SELECT * FROM Groups WHERE GID = ?). -/
def groupExists (db : DB) (gid : Nat) : Bool :=
  db.groups.any (fun gr => gr.gid == gid)

/-- SELECT EXISTS(SELECT * FROM IncentivesAvailable WHERE IID = ?). -/
def incentiveExists (db : DB) (iid : Nat) : Bool :=
  db.incentivesAvailable.any (fun ia => ia.iid == iid)

/-- The scalar subquery SELECT UID FROM Users WHERE Uname = ? LIMIT 1.
Callers only use it after a userExists check, so the default 0 is dead. -/
def resolveUid (db : DB) (uname : Nat) : Nat :=
  ((db.users.find? (fun u => u.uname == uname)).map (·.uid)).getD 0

/-- Point lookup of a Users row by UID (the join Users ON UID = ...). -/
def userByUid (db : DB) (uid : Nat) : Option User :=
  db.users.find? (fun u => u.uid == uid)

/-- isInGroup: EXISTS a Memberships row joined to Users with the given
username and group and LeftGroup IS NULL. -/
def isInGroup (db : DB) (uname gid : Nat) : Bool :=
  db.memberships.any (fun m =>
    m.gid == gid && m.left == none &&
      db.users.any (fun u => u.uid == m.uid && u.uname == uname))

/-- listGroupMembers: open Memberships rows of the group joined to Users.
The RIGHT JOIN with Users acts as an inner join because the WHERE clause
discards user rows with no matching membership. -/
def listGroupMembers (db : DB) (gid : Nat) : List User :=
  (db.memberships.filter (fun m => m.gid == gid && m.left == none)).filterMap
    (fun m => userByUid db m.uid)

/-! ### The stored SQL functions from setup/db-setup.sh -/

/-- The WHERE clause of COUNT_MEMBERS for one Memberships row:
GID = g AND (LeftGroup IS NULL OR LeftGroup >= fromDate)
AND JoinedGroup <= toDate. -/
def memberActive (gid f t : Nat) (m : MembershipRow) : Bool :=
  m.gid == gid &&
    (match m.left with
      | none => true
      | some l => decide (f ≤ l)) &&
    decide (m.joined ≤ t)

/-- COUNT_MEMBERS: COUNT(DISTINCT UID) over the qualifying rows. -/
def countMembers (db : DB) (gid f t : Nat) : Nat :=
  (((db.memberships.filter (memberActive gid f t)).map (·.uid)).dedup).length

/-- The join Incentives RIGHT JOIN IncentivesAvailable ON IID = IID.
Rows of IncentivesAvailable with no realization are dropped by every
caller (their NULL date fails the BETWEEN filter), so the inner join. -/
def incentiveJoin (db : DB) : List (IncentiveRow × IncentiveDef) :=
  db.incentives.flatMap (fun i =>
    (db.incentivesAvailable.filter (fun ia => ia.iid == i.iid)).map (fun ia => (i, ia)))

/-- SUM_EXPENSES: in-range purchase amounts of the group plus in-range
realized incentive amounts (taken from the definition), both IFNULL 0. -/
def sumExpenses (db : DB) (gid f t : Nat) : Nat :=
  ((db.purchases.filter (fun p =>
      p.gid == gid && decide (f ≤ p.date) && decide (p.date ≤ t))).map (·.amount)).sum
  + (((incentiveJoin db).filter (fun r =>
      r.2.gid == gid && decide (f ≤ r.1.date) && decide (r.1.date ≤ t))).map (·.2.amount)).sum

/-- CALC_SHARE: ROUND(SUM_EXPENSES DIV COUNT_MEMBERS, 2).  DIV on the
DECIMAL(7,2) total truncates to whole currency units, so the share in
cents is 100 times a whole-unit floor quotient.  With zero members the
division yields NULL, modeled as none. -/
def calcShare (db : DB) (gid f t : Nat) : Option Nat :=
  let n := countMembers db gid f t
  if n = 0 then none
  else some (100 * (sumExpenses db gid f t / (100 * n)))

/-! ### getTransactionRecords -/

/-- One row of the merged transaction listing. -/
structure Transaction where
  type : String
  date : Nat
  uname : Option Nat
  incentiveName : Option String
  amount : Nat
  store : Option String
  notes : Option String
  deriving DecidableEq, Repr

/-- The literal date 2022-03-01 hard-coded in the incentive branch of the
getTransactionRecords query (the query text contains the string literals
while the parameter array still carries fromDate and toDate). -/
def hardcodedFrom : Nat := 20220301

/-- The literal date 2022-04-02 hard-coded in the incentive branch of the
getTransactionRecords query. -/
def hardcodedTo : Nat := 20220402

/-- getTransactionRecords: the purchase branch filtered by the requested
range, UNION ALL the incentive branch filtered by the hard-coded literal
range, ORDER BY date. -/
def getTransactionRecords (db : DB) (gid f t : Nat) : List Transaction :=
  let purchaseRows := (db.purchases.filter (fun p =>
      p.gid == gid && decide (f ≤ p.date) && decide (p.date ≤ t))).map (fun p =>
      { type := "purchase", date := p.date, uname := (userByUid db p.uid).map (·.uname),
        incentiveName := none, amount := p.amount, store := some p.store,
        notes := some p.notes : Transaction })
  let incentiveRows := ((incentiveJoin db).filter (fun r =>
      r.2.gid == gid && decide (hardcodedFrom ≤ r.1.date) && decide (r.1.date ≤ hardcodedTo))).map
      (fun r =>
      { type := "incentive", date := r.1.date, uname := (userByUid db r.1.uid).map (·.uname),
        incentiveName := some r.2.name, amount := r.2.amount, store := none,
        notes := some r.1.notes : Transaction })
  List.insertionSort (fun a b => a.date ≤ b.date) (purchaseRows ++ incentiveRows)

/-! ### calculateSettlements

Both aggregate queries of calculateSettlements have the same shape:
FROM Memberships LEFT JOIN Users ON UID LEFT JOIN (fact rows of the user)
WHERE Memberships.GID = ? AND (fact date BETWEEN ? AND ? OR fact IS NULL)
GROUP BY Users.Uname ORDER BY Users.Uname ASC.
groupRows and groupAgg model that shape once, parametrized by the fact
rows a user contributes and the date filter on a fact row. -/

/-- A LEFT JOIN against the fact rows of one user: one row per fact, or a
single NULL row when the user has none. -/
def leftJoinRows {α : Type} (items : List α) : List (Option α) :=
  if items.isEmpty then [none] else items.map some

/-- The joined and WHERE-filtered row set of one aggregate query, keyed by
username.  Memberships rows are filtered only by group (their dates never
appear in the WHERE clause); the foreign key on Memberships.UID makes the
user lookup total, so the none branch is dead. -/
def groupRows {α : Type} (db : DB) (gid : Nat) (items : Nat → List α) (keep : α → Bool) :
    List (Nat × Option α) :=
  ((db.memberships.filter (fun m => m.gid == gid)).flatMap (fun m =>
    match userByUid db m.uid with
    | some u => (leftJoinRows (items u.uid)).map (fun x => (u.uname, x))
    | none => [])).filter (fun r =>
      match r.2 with
      | some x => keep x
      | none => true)

/-- GROUP BY Users.Uname ORDER BY Users.Uname ASC over groupRows: the
distinct usernames in ascending order, each with its surviving fact rows. -/
def groupAgg {α : Type} (db : DB) (gid : Nat) (items : Nat → List α) (keep : α → Bool) :
    List (Nat × List α) :=
  let kept := groupRows db gid items keep
  (List.insertionSort (· ≤ ·) ((kept.map (·.1)).dedup)).map
    (fun w => (w, (kept.filter (·.1 == w)).filterMap (·.2)))

/-- One row of the purchase-side aggregate query of calculateSettlements. -/
structure Q1Row where
  uname : Nat
  totalPurchases : Nat
  countPurchases : Nat
  groupShare : Option Nat
  deriving DecidableEq, Repr

/-- One row of the incentive-side aggregate query of calculateSettlements. -/
structure Q2Row where
  uname : Nat
  totalIncentives : Nat
  countIncentives : Nat
  deriving DecidableEq, Repr

/-- The fact rows of the purchase-side query for one user: the LEFT JOIN
Purchases ON Users.UID = Purchases.UID carries no group condition, so every
purchase of the user, in any group, joins in. -/
def purchaseItems (db : DB) (uid : Nat) : List Purchase :=
  db.purchases.filter (fun p => p.uid == uid)

/-- The purchase-side aggregate query: per username, IFNULL(SUM(Amount),0),
COUNT(Amount) and the constant CALC_SHARE column. -/
def settleQ1 (db : DB) (gid f t : Nat) : List Q1Row :=
  (groupAgg db gid (purchaseItems db)
    (fun p => decide (f ≤ p.date) && decide (p.date ≤ t))).map (fun r =>
    { uname := r.1, totalPurchases := (r.2.map (·.amount)).sum,
      countPurchases := r.2.length, groupShare := calcShare db gid f t })

/-- The fact rows of the incentive-side query for one user: Incentives rows
of the user (any group), each LEFT JOINed to its IncentiveDef. -/
def incentiveItems (db : DB) (uid : Nat) : List (IncentiveRow × Option IncentiveDef) :=
  (db.incentives.filter (fun i => i.uid == uid)).flatMap (fun i =>
    let ias := db.incentivesAvailable.filter (fun ia => ia.iid == i.iid)
    if ias.isEmpty then [(i, none)] else ias.map (fun ia => (i, some ia)))

/-- The incentive-side aggregate query: per username,
IFNULL(SUM(IncentivesAvailable.Amount),0) and COUNT(Incentives.IID). -/
def settleQ2 (db : DB) (gid f t : Nat) : List Q2Row :=
  (groupAgg db gid (incentiveItems db)
    (fun r => decide (f ≤ r.1.date) && decide (r.1.date ≤ t))).map (fun r =>
    { uname := r.1, totalIncentives := (r.2.map (fun x => (x.2.map (·.amount)).getD 0)).sum,
      countIncentives := r.2.length })

/-- One per-member row of the settlement report. -/
structure Settlement where
  uname : Nat
  totalPurchases : Nat
  countPurchases : Nat
  totalIncentives : Nat
  countIncentives : Nat
  totalContribution : Nat
  owes : Int
  deriving DecidableEq, Repr

/-- calculateSettlements: runs the two aggregate queries and pairs their
rows by index i over the purchase-side length.  The groupShare of the
first purchase-side row is coerced with Number (NULL becomes 0) and used
for every row.  When the purchase-side list is longer than the
incentive-side list the loop reads past the end of the latter and the
call rejects with a TypeError, modeled as none. -/
def calculateSettlements (db : DB) (gid f t : Nat) : Option (List Settlement) :=
  let q1 := settleQ1 db gid f t
  let q2 := settleQ2 db gid f t
  let base : Nat :=
    match q1 with
    | [] => 0
    | r :: _ => r.groupShare.getD 0
  if q1.length ≤ q2.length then
    some ((q1.zip q2).map (fun rr =>
      { uname := rr.1.uname, totalPurchases := rr.1.totalPurchases,
        countPurchases := rr.1.countPurchases, totalIncentives := rr.2.totalIncentives,
        countIncentives := rr.2.countIncentives,
        totalContribution := rr.1.totalPurchases + rr.2.totalIncentives,
        owes := (base : Int) - ((rr.1.totalPurchases : Int) + (rr.2.totalIncentives : Int)) }))
  else none

/-! ### Mutating operations -/

/-- addIncentive: validates the user and the incentive definition, then
inserts one Incentives row.  Omitted notes default to the empty string and
an omitted date defaults to the current date (new Date()). -/
def addIncentive (db : DB) (now : Instant) (uname iid : Nat)
    (notes : Option String) (date : Option Nat) : Except InputError DB :=
  if !userExists db uname then .error { title := "User Not Found" }
  else if !incentiveExists db iid then .error { title := "Incentive Not Found" }
  else
    .ok { db with
      incentives := db.incentives ++
        [{ uid := resolveUid db uname, iid := iid, date := date.getD now.day,
           notes := notes.getD "", ins := db.nextIns }],
      nextIns := db.nextIns + 1 }

/-- The auto-generated cascade note referencing the purchase date
(toLocaleDateString rendered as the decimal day code). -/
def noteFor (d : Nat) : String :=
  "Added by purchase on " ++ toString d ++ "."

/-- The incentive definitions that auto-trigger on a purchase:
GID = ? AND Begin < NOW() AND (End IS NULL OR End > NOW())
AND OnPurchase = 1. -/
def cascadeDefs (db : DB) (gid : Nat) (now : Instant) : List IncentiveDef :=
  db.incentivesAvailable.filter (fun ia =>
    ia.gid == gid && dateLtNow ia.beginDay now &&
      (match ia.endDay with
        | none => true
        | some e => dateGtNow e now) &&
      ia.onPurchase)

/-- addPurchase: validates user, group and membership, defaults the
optional arguments, inserts one Incentives row per triggering definition
(each dated by the addIncentive default, the current date), then inserts
the Purchases row.  The cascade inserts are started by Promise.all; each
one satisfies the addIncentive checks (the user was just validated and the
definition comes from the IncentivesAvailable table), so folding them in
list order is equivalent. -/
def addPurchase (db : DB) (now : Instant) (uname gid amount : Nat)
    (store : Option String) (date : Option Nat) (notes : Option String) :
    Except InputError DB :=
  if !userExists db uname then .error { title := "User Not Found" }
  else if !groupExists db gid then .error { title := "Group Not Found" }
  else if !isInGroup db uname gid then .error { title := "User Not In Group" }
  else
    let d := date.getD now.day
    do
      let db2 ← (cascadeDefs db gid now).foldlM
        (fun acc ia => addIncentive acc now uname ia.iid (some (noteFor d)) none) db
      pure { db2 with
        purchases := db2.purchases ++
          [{ uid := resolveUid db2 uname, gid := gid, date := d,
             store := store.getD "", amount := amount, notes := notes.getD "",
             ins := db2.nextIns }],
        nextIns := db2.nextIns + 1 }

/-- joinGroup: validates user, group, absence of an open membership, the
member cap and the open status, then inserts an open Memberships row dated
NOW(). -/
def joinGroup (db : DB) (now : Instant) (uname gid : Nat) : Except InputError DB :=
  if !userExists db uname then .error { title := "User Not Found" }
  else if !groupExists db gid then .error { title := "Group Not Found" }
  else if isInGroup db uname gid then .error { title := "Already In Group" }
  else
    match db.groups.find? (fun gr => gr.gid == gid) with
    | none => .error { title := "Group Not Found" }
    | some gr =>
      if (match gr.maxUsers with
          | some mx => decide ((listGroupMembers db gid).length ≥ mx)
          | none => false) then .error { title := "Group Full" }
      else if gr.status == "locked" then .error { title := "Group Locked" }
      else
        .ok { db with
          memberships := db.memberships ++
            [{ uid := resolveUid db uname, gid := gid, joined := now.day, left := none }] }

/-- leaveGroup: validates user, group and membership, then sets LeftGroup
to NOW() on the open Memberships rows of the pair (no row is deleted). -/
def leaveGroup (db : DB) (now : Instant) (uname gid : Nat) : Except InputError DB :=
  if !userExists db uname then .error { title := "User Not Found" }
  else if !groupExists db gid then .error { title := "Group Not Found" }
  else if !isInGroup db uname gid then .error { title := "Not In Group" }
  else
    .ok { db with
      memberships := db.memberships.map (fun m =>
        if m.uid == resolveUid db uname && m.gid == gid && m.left == none then
          { m with left := some now.day }
        else m) }

/-- lockGroup: validates the group, then sets its status to locked. -/
def lockGroup (db : DB) (gid : Nat) : Except InputError DB :=
  if !groupExists db gid then .error { title := "Group Not Found" }
  else
    .ok { db with
      groups := db.groups.map (fun gr =>
        if gr.gid == gid then { gr with status := "locked" } else gr) }

/-- unlockGroup: validates the group, then sets its status to open. -/
def unlockGroup (db : DB) (gid : Nat) : Except InputError DB :=
  if !groupExists db gid then .error { title := "Group Not Found" }
  else
    .ok { db with
      groups := db.groups.map (fun gr =>
        if gr.gid == gid then { gr with status := "open" } else gr) }

/-- createGroup: raises a numeric cap to the length of the initial member
list when it is smaller, validates the status, inserts the group row with
status open, joins every initial member, then (only if locked was
requested) locks the group.  The fresh GID produced by UUID() and read
back by the newest-row query is modeled by the nextId counter; the
Promise.all over the joins is folded in list order.  Returns the new
store and the fresh GID. -/
def createGroup (db : DB) (now : Instant) (name description status : String)
    (maxMembers : Option Nat) (members : List Nat) : Except InputError (DB × Nat) :=
  let cap : Option Nat :=
    match maxMembers with
    | some mx => some (if members.length > mx then members.length else mx)
    | none => none
  if !(status == "open" || status == "locked") then
    .error { title := "Invalid Group Status" }
  else
    let gid := db.nextId
    let db1 : DB := { db with
      groups := db.groups ++
        [{ gid := gid, name := name, description := description,
           status := "open", maxUsers := cap }],
      nextId := db.nextId + 1 }
    do
      let db2 ← members.foldlM (fun acc w => joinGroup acc now w gid) db1
      let db3 ← if status == "locked" then lockGroup db2 gid else pure db2
      pure (db3, gid)

/-! ### Spec-side definitions

activeSpec renders the §4.1 activity rule in the words of the spec, for
comparison with the code-derived memberActive predicate. -/

/-- Spec wording of the §4.1 activity rule: a Membership interval is
active during the range iff joined ≤ to and (left is null or left ≥ from),
for the requested group. -/
def activeSpec (gid f t : Nat) (m : MembershipRow) : Prop :=
  m.gid = gid ∧ m.joined ≤ t ∧ (m.left = none ∨ ∃ l, m.left = some l ∧ f ≤ l)

/-- The spec predicate agrees pointwise with the SQL WHERE clause. -/
theorem activeSpec_iff (gid f t : Nat) (m : MembershipRow) :
    activeSpec gid f t m ↔ memberActive gid f t m = true := by
  cases h : m.left <;> simp [activeSpec, memberActive, h] <;> tauto

instance (gid f t : Nat) (m : MembershipRow) : Decidable (activeSpec gid f t m) :=
  decidable_of_iff _ (activeSpec_iff gid f t m).symm

/-- The set of distinct users having at least one active interval, in the
words of §4.1. -/
def distinctActiveUsers (db : DB) (gid f t : Nat) : Finset Nat :=
  (db.memberships.toFinset.filter (activeSpec gid f t)).image (·.uid)

/-- COUNT_MEMBERS computes exactly the size of the distinct active user
set, for any arguments: the SQL function contains no range validation. -/
theorem countMembers_eq_card (db : DB) (gid f t : Nat) :
    countMembers db gid f t = (distinctActiveUsers db gid f t).card := by
  unfold countMembers distinctActiveUsers
  rw [← List.card_toFinset]
  congr 1
  ext a
  simp only [List.mem_toFinset, List.mem_map, List.mem_filter, Finset.mem_image,
    Finset.mem_filter]
  constructor
  · rintro ⟨m, ⟨hm, hq⟩, rfl⟩
    exact ⟨m, ⟨hm, (activeSpec_iff gid f t m).mpr hq⟩, rfl⟩
  · rintro ⟨m, ⟨hm, hq⟩, rfl⟩
    exact ⟨m, ⟨hm, (activeSpec_iff gid f t m).mp hq⟩, rfl⟩

/-! ### Example stores used by the concrete theorems -/

/-- A group whose only member left before the queried range, with one
purchase of that user inside the range. -/
def dbNoActive : DB :=
  { users := [{ uid := 1, uname := 10 }],
    groups := [{ gid := 1, name := "g", description := "", status := "open", maxUsers := none }],
    memberships := [{ uid := 1, gid := 1, joined := 20230101, left := some 20230131 }],
    purchases := [{ uid := 1, gid := 1, date := 20230610, store := "", amount := 3000,
                    notes := "", ins := 0 }],
    incentivesAvailable := [], incentives := [], nextIns := 1, nextId := 2 }

/-- A group with one incentive realization dated 2023-05-01, inside the
queried range but outside the hard-coded 2022 window. -/
def dbRecords : DB :=
  { users := [{ uid := 1, uname := 10 }],
    groups := [{ gid := 1, name := "g", description := "", status := "open", maxUsers := none }],
    memberships := [{ uid := 1, gid := 1, joined := 20230101, left := none }],
    purchases := [],
    incentivesAvailable := [{ iid := 1, gid := 1, name := "chore", description := "",
                              amount := 500, beginDay := 20230101, endDay := none,
                              onPurchase := false }],
    incentives := [{ uid := 1, iid := 1, date := 20230501, notes := "", ins := 0 }],
    nextIns := 1, nextId := 2 }

/-- A two-member group with a single in-range purchase of 101.99. -/
def dbShare : DB :=
  { users := [{ uid := 1, uname := 10 }, { uid := 2, uname := 20 }],
    groups := [{ gid := 1, name := "g", description := "", status := "open", maxUsers := none }],
    memberships := [{ uid := 1, gid := 1, joined := 20230101, left := none },
                    { uid := 2, gid := 1, joined := 20230101, left := none }],
    purchases := [{ uid := 1, gid := 1, date := 20230610, store := "", amount := 10199,
                    notes := "", ins := 0 }],
    incentivesAvailable := [], incentives := [], nextIns := 1, nextId := 2 }

/-- A user who joined, left, and rejoined the group: two intervals that
both meet the activity rule for the queried range. -/
def dbRejoin : DB :=
  { users := [{ uid := 1, uname := 10 }],
    groups := [{ gid := 1, name := "g", description := "", status := "open", maxUsers := none }],
    memberships := [{ uid := 1, gid := 1, joined := 20240101, left := some 20240115 },
                    { uid := 1, gid := 1, joined := 20240201, left := none }],
    purchases := [], incentivesAvailable := [], incentives := [], nextIns := 0, nextId := 2 }

/-! ### C1 -/

/-- Claim C1 counterexample.  The claim states that a settlement over a
range with zero active members signals NoActiveMembers and never silently
returns a per-member report computed with a defaulted group share.  On
dbNoActive with range 2023-06-01..2023-06-30 the active member count is 0,
yet calculateSettlements returns a one-row report: CALC_SHARE is NULL
(division by zero), Number(null) coerces it to 0, and owes is computed
as 0 - 30.00.  No error of any kind is signaled. -/
theorem c1_counterexample :
    countMembers dbNoActive 1 20230601 20230630 = 0 ∧
    calculateSettlements dbNoActive 1 20230601 20230630 =
      some [{ uname := 10, totalPurchases := 3000, countPurchases := 1,
              totalIncentives := 0, countIncentives := 0,
              totalContribution := 3000, owes := -3000 }] := by
  constructor
  · rfl
  · rfl

/-- Claim C1 as amended.  With zero active members no error is signaled:
CALC_SHARE returns NULL (modeled none), the report is still produced
whenever the pairing of the two aggregate queries succeeds, and every row
is computed with the NULL share coerced to 0, so owes is the negated
contribution. -/
theorem c1_amended (db : DB) (gid f t : Nat)
    (h : countMembers db gid f t = 0) :
    calcShare db gid f t = none ∧
    ∀ rows, calculateSettlements db gid f t = some rows →
      ∀ r ∈ rows, r.owes = -(r.totalContribution : Int) := by
  have hshare : calcShare db gid f t = none := by
    unfold calcShare
    simp [h]
  refine ⟨hshare, ?_⟩
  intro rows hrows r hr
  unfold calculateSettlements at hrows
  by_cases hlen : (settleQ1 db gid f t).length ≤ (settleQ2 db gid f t).length
  · simp only [hlen, if_true, Option.some.injEq] at hrows
    subst hrows
    rcases List.mem_map.mp hr with ⟨rr, hmem, rfl⟩
    have hbase :
        (match settleQ1 db gid f t with
          | [] => 0
          | r :: _ => r.groupShare.getD 0) = 0 := by
      unfold settleQ1
      cases hq : groupAgg db gid (purchaseItems db)
          (fun p => decide (f ≤ p.date) && decide (p.date ≤ t)) with
      | nil => simp
      | cons a l => simp [hshare]
    simp only [hbase]
    simp [Settlement.owes, Settlement.totalContribution]
  · simp [hlen] at hrows

/-- Witness for c1_amended at the concrete store dbNoActive. -/
theorem c1_amended_witness : calcShare dbNoActive 1 20230601 20230630 = none :=
  (c1_amended dbNoActive 1 20230601 20230630 (by decide)).1

/-! ### C2 -/

/-- Claim C2, evaluated at the failing input.  dbRecords holds exactly one
incentive realization of group 1, dated 2023-05-01, inside the requested
range 2023-04-01..2023-06-01, yet getTransactionRecords returns no record
at all: the incentive branch of the query filters by the hard-coded
literals 2022-03-01..2022-04-02 instead of the requested range. -/
theorem c2_code_bug_eval :
    dbRecords.incentives = [{ uid := 1, iid := 1, date := 20230501, notes := "", ins := 0 }] ∧
    (20230401 ≤ 20230501 ∧ 20230501 ≤ 20230601) ∧
    getTransactionRecords dbRecords 1 20230401 20230601 = [] := by
  refine ⟨rfl, by decide, rfl⟩

/-! ### C4 -/

/-- Claim C4 counterexample.  dbShare has 2 active members and an in-range
expense total of 10199 cents.  CALC_SHARE floors the per-member share at
whole currency units: the share is 50.00, and the undistributed remainder
is 10199 - 2 * 5000 = 199 cents, far above the claimed bound count - 1 = 1
cent. -/
theorem c4_counterexample :
    countMembers dbShare 1 20230601 20230630 = 2 ∧
    sumExpenses dbShare 1 20230601 20230630 = 10199 ∧
    calcShare dbShare 1 20230601 20230630 = some 5000 ∧
    ¬(10199 - 2 * 5000 ≤ 2 - 1) := by
  refine ⟨rfl, rfl, rfl, by decide⟩

/-- Claim C4 as amended.  For count ≥ 1 the group share is the total
floored at whole currency units (100 cents), expressed in cents; the
undistributed remainder is therefore in [0, 100 * count - 1] cents, never
negative and never at least count whole currency units. -/
theorem c4_amended (db : DB) (gid f t : Nat)
    (h : 0 < countMembers db gid f t) :
    ∃ s, calcShare db gid f t = some s ∧
      s = 100 * (sumExpenses db gid f t / (100 * countMembers db gid f t)) ∧
      countMembers db gid f t * s ≤ sumExpenses db gid f t ∧
      sumExpenses db gid f t - countMembers db gid f t * s
        ≤ 100 * countMembers db gid f t - 1 := by
  set n := countMembers db gid f t with hn
  set T := sumExpenses db gid f t with hT
  refine ⟨100 * (T / (100 * n)), ?_, rfl, ?_, ?_⟩
  · unfold calcShare
    rw [← hn, ← hT]
    simp [Nat.pos_iff_ne_zero.mp h]
  · have hdm := Nat.div_add_mod T (100 * n)
    have hlt : T % (100 * n) < 100 * n := Nat.mod_lt _ (Nat.mul_pos (by norm_num) h)
    have hmul : n * (100 * (T / (100 * n))) = 100 * n * (T / (100 * n)) := by ring
    omega
  · have hdm := Nat.div_add_mod T (100 * n)
    have hlt : T % (100 * n) < 100 * n := Nat.mod_lt _ (Nat.mul_pos (by norm_num) h)
    have hmul : n * (100 * (T / (100 * n))) = 100 * n * (T / (100 * n)) := by ring
    omega

/-- Witness for c4_amended at the concrete store dbShare. -/
theorem c4_amended_witness :
    ∃ s, calcShare dbShare 1 20230601 20230630 = some s ∧
      s = 100 * (sumExpenses dbShare 1 20230601 20230630 /
        (100 * countMembers dbShare 1 20230601 20230630)) ∧
      countMembers dbShare 1 20230601 20230630 * s ≤ sumExpenses dbShare 1 20230601 20230630 ∧
      sumExpenses dbShare 1 20230601 20230630 -
          countMembers dbShare 1 20230601 20230630 * s
        ≤ 100 * countMembers dbShare 1 20230601 20230630 - 1 :=
  c4_amended dbShare 1 20230601 20230630 (by decide)

/-! ### C6 -/

/-- Claim C6.  For from ≤ to, activeMemberCount equals the number of
distinct users having at least one membership interval with
joined ≤ to and (left null or left ≥ from); a user with several such
intervals (left and rejoined inside the range) is counted once, since the
count is the cardinality of a set of distinct user ids. -/
theorem c6_count_distinct (db : DB) (gid f t : Nat) (h : f ≤ t) :
    countMembers db gid f t = (distinctActiveUsers db gid f t).card :=
  countMembers_eq_card db gid f t

/-- Witness for c6_count_distinct: the rejoin scenario of the spec.  The
user joined 2024-01-01, left 2024-01-15, rejoined 2024-02-01; over
2024-01-01..2024-02-28 both intervals qualify and the user is counted
exactly once. -/
theorem c6_count_distinct_witness :
    countMembers dbRejoin 1 20240101 20240228 = 1 ∧
    (distinctActiveUsers dbRejoin 1 20240101 20240228).card = 1 := by
  have h := c6_count_distinct dbRejoin 1 20240101 20240228 (by decide)
  exact ⟨by decide, by rw [← h]; decide⟩

/-! ### C7 -/

/-- Claim C7 counterexample.  The claim states that a call with from after
to signals InvalidRange instead of returning a count.  COUNT_MEMBERS has
no range validation: on dbShare with the inverted range
2023-06-15..2023-06-10 it simply evaluates its WHERE clause and returns
the count 2. -/
theorem c7_counterexample :
    20230610 < 20230615 ∧ countMembers dbShare 1 20230615 20230610 = 2 := by
  exact ⟨by decide, rfl⟩

/-- Claim C7 as amended.  No InvalidRange error exists anywhere in the
code.  For from > to, activeMemberCount evaluates the same membership
predicate as for any other range and returns the size of the distinct
qualifying user set, which can be nonzero (an interval spanning the
inverted range still qualifies). -/
theorem c7_amended (db : DB) (gid f t : Nat) (h : t < f) :
    countMembers db gid f t = (distinctActiveUsers db gid f t).card :=
  countMembers_eq_card db gid f t

/-- Witness for c7_amended at the inverted range on dbShare. -/
theorem c7_amended_witness :
    countMembers dbShare 1 20230615 20230610 =
      (distinctActiveUsers dbShare 1 20230615 20230610).card :=
  c7_amended dbShare 1 20230615 20230610 (by decide)

/-! ### C8 -/

/-- A group with two existing users of which only the first is a member. -/
def dbMember : DB :=
  { users := [{ uid := 1, uname := 10 }, { uid := 2, uname := 20 }],
    groups := [{ gid := 1, name := "g", description := "", status := "open", maxUsers := none }],
    memberships := [{ uid := 1, gid := 1, joined := 20240101, left := none }],
    purchases := [], incentivesAvailable := [], incentives := [], nextIns := 0, nextId := 2 }

/-- Claim C8.  addPurchase performs its three existence and membership
checks before any mutation; in each failing case it returns the matching
InputError (the spec's NotAMember kind is realized as the InputError
titled User Not In Group).  The embedding passes the whole store through
each operation, so an error result is, by construction, the unchanged
store: no Purchases row and no Incentives row is produced. -/
theorem c8_validation (db : DB) (now : Instant) (uname gid amount : Nat)
    (store : Option String) (date : Option Nat) (notes : Option String) :
    (userExists db uname = false →
      addPurchase db now uname gid amount store date notes =
        .error { title := "User Not Found" }) ∧
    (userExists db uname = true → groupExists db gid = false →
      addPurchase db now uname gid amount store date notes =
        .error { title := "Group Not Found" }) ∧
    (userExists db uname = true → groupExists db gid = true →
      isInGroup db uname gid = false →
      addPurchase db now uname gid amount store date notes =
        .error { title := "User Not In Group" }) := by
  refine ⟨?_, ?_, ?_⟩ <;> intros <;> simp [addPurchase, *]

/-- Witness for c8_validation: a user who exists but is not a member. -/
theorem c8_validation_witness :
    addPurchase dbMember { day := 20240201, tod := 1 } 20 1 100 none none none =
      .error { title := "User Not In Group" } :=
  (c8_validation dbMember { day := 20240201, tod := 1 } 20 1 100 none none none).2.2
    (by decide) (by decide) (by decide)

/-! ### C3 -/

/-- The Incentives rows the cascade inserts: one per triggering
definition, in list order, with consecutive insertion stamps. -/
def stampRows (uid day : Nat) (note : String) (start : Nat) :
    List IncentiveDef → List IncentiveRow
  | [] => []
  | ia :: rest =>
    { uid := uid, iid := ia.iid, date := day, notes := note, ins := start } ::
      stampRows uid day note (start + 1) rest

/-- Shape facts about stampRows: every produced row is for the given user,
dated the given day, carries the given note, and its insertion stamp lies
strictly below start + length. -/
theorem stampRows_facts (uid day : Nat) (note : String) :
    ∀ (defs : List IncentiveDef) (start : Nat),
      ∀ r ∈ stampRows uid day note start defs,
        r.uid = uid ∧ r.date = day ∧ r.notes = note ∧
          start ≤ r.ins ∧ r.ins < start + defs.length := by
  intro defs
  induction defs with
  | nil => intro start r hr; simp [stampRows] at hr
  | cons ia rest ih =>
    intro start r hr
    simp only [stampRows, List.mem_cons] at hr
    rcases hr with rfl | hr
    · simp
    · have h := ih (start + 1) r hr
      refine ⟨h.1, h.2.1, h.2.2.1, by omega, by simp only [List.length_cons]; omega⟩

/-- Every cascade definition names an existing incentive definition. -/
theorem cascadeDefs_exist (db : DB) (gid : Nat) (now : Instant) :
    ∀ ia ∈ cascadeDefs db gid now, incentiveExists db ia.iid = true := by
  intro ia hia
  have hmem : ia ∈ db.incentivesAvailable := (List.mem_filter.mp hia).1
  exact List.any_eq_true.mpr ⟨ia, hmem, by simp⟩

/-- Binding an ok value in the Except monad applies the continuation. -/
theorem ok_bind {ε α β : Type} (a : α) (f : α → Except ε β) :
    (Except.ok (ε := ε) a >>= f) = f a := rfl

/-- Folding the cascade inserts over a list of definitions appends exactly
the stampRows block and advances the insertion counter by its length.
Each insert succeeds because the user exists and each definition exists. -/
theorem cascade_foldlM (now : Instant) (uname : Nat) (note : String) :
    ∀ (defs : List IncentiveDef) (db : DB),
      userExists db uname = true →
      (∀ ia ∈ defs, incentiveExists db ia.iid = true) →
      defs.foldlM (fun acc ia => addIncentive acc now uname ia.iid (some note) none) db =
        .ok { db with
          incentives := db.incentives ++
            stampRows (resolveUid db uname) now.day note db.nextIns defs,
          nextIns := db.nextIns + defs.length } := by
  intro defs
  induction defs with
  | nil =>
    intro db hu hd
    simp only [List.foldlM_nil, stampRows, List.append_nil, Nat.add_zero]
    rfl
  | cons ia rest ih =>
    intro db hu hd
    have hstep : addIncentive db now uname ia.iid (some note) none = .ok
        { db with
          incentives := db.incentives ++
            [{ uid := resolveUid db uname, iid := ia.iid, date := now.day,
               notes := note, ins := db.nextIns }],
          nextIns := db.nextIns + 1 } := by
      simp [addIncentive, hu, hd ia (List.mem_cons_self ia rest)]
    have hrest := ih
      { db with
        incentives := db.incentives ++
          [{ uid := resolveUid db uname, iid := ia.iid, date := now.day,
             notes := note, ins := db.nextIns }],
        nextIns := db.nextIns + 1 }
      hu (fun x hx => hd x (List.mem_cons_of_mem ia hx))
    rw [List.foldlM_cons, hstep, ok_bind, hrest]
    simp [stampRows, resolveUid]
    omega

/-- A group with one active on-purchase incentive definition. -/
def dbCascade : DB :=
  { users := [{ uid := 1, uname := 10 }],
    groups := [{ gid := 1, name := "g", description := "", status := "open", maxUsers := none }],
    memberships := [{ uid := 1, gid := 1, joined := 20220101, left := none }],
    purchases := [],
    incentivesAvailable := [{ iid := 7, gid := 1, name := "auto", description := "",
                              amount := 250, beginDay := 20220101, endDay := none,
                              onPurchase := true }],
    incentives := [], nextIns := 0, nextId := 2 }

/-- Claim C3 counterexample.  The claim states that the cascade
realization is dated the purchase's date.  On dbCascade, recording a
purchase back-dated to 2022-01-05 while the clock reads 2022-01-10
creates the realization dated 2022-01-10 (addIncentive is called without
a date, so it defaults to new Date()), while the purchase row is dated
2022-01-05; the auto note does reference the purchase date. -/
theorem c3_counterexample :
    addPurchase dbCascade { day := 20220110, tod := 3600 } 10 1 4500 none
        (some 20220105) none =
      .ok { dbCascade with
        incentives := [{ uid := 1, iid := 7, date := 20220110,
                         notes := noteFor 20220105, ins := 0 }],
        purchases := [{ uid := 1, gid := 1, date := 20220105, store := "",
                        amount := 4500, notes := "", ins := 1 }],
        nextIns := 2 } ∧
    (20220110 : Nat) ≠ 20220105 :=
  ⟨rfl, by decide⟩

/-- Claim C3 as amended.  When a member records a purchase, then for every
IncentiveDefinition of the group with on-purchase true, effective-from
strictly before now, and effective-until null or after now, exactly one
IncentiveRealization is created for that user (the stampRows block, one
row per triggering definition), dated the current date, which coincides
with the purchase date only when the purchase is recorded for the current
day, with the auto-generated note referencing the triggering purchase
date; all these rows receive insertion stamps strictly below the stamp of
the purchase row, i.e. they are inserted before the purchase row. -/
theorem c3_amended (db : DB) (now : Instant) (uname gid amount : Nat)
    (store : Option String) (date : Option Nat) (notes : Option String)
    (hu : userExists db uname = true) (hg : groupExists db gid = true)
    (hm : isInGroup db uname gid = true) :
    addPurchase db now uname gid amount store date notes = .ok
      { db with
        incentives := db.incentives ++
          stampRows (resolveUid db uname) now.day (noteFor (date.getD now.day))
            db.nextIns (cascadeDefs db gid now),
        purchases := db.purchases ++
          [{ uid := resolveUid db uname, gid := gid, date := date.getD now.day,
             store := store.getD "", amount := amount, notes := notes.getD "",
             ins := db.nextIns + (cascadeDefs db gid now).length }],
        nextIns := db.nextIns + (cascadeDefs db gid now).length + 1 } ∧
    ∀ r ∈ stampRows (resolveUid db uname) now.day (noteFor (date.getD now.day))
        db.nextIns (cascadeDefs db gid now),
      r.date = now.day ∧
        r.ins < db.nextIns + (cascadeDefs db gid now).length := by
  constructor
  · unfold addPurchase
    simp only [hu, hg, hm, Bool.not_true, Bool.false_eq_true, if_false, if_true]
    rw [cascade_foldlM now uname (noteFor (date.getD now.day)) (cascadeDefs db gid now) db hu
      (cascadeDefs_exist db gid now)]
    simp [resolveUid]
  · intro r hr
    have h := stampRows_facts (resolveUid db uname) now.day
      (noteFor (date.getD now.day)) (cascadeDefs db gid now) db.nextIns r hr
    exact ⟨h.2.1, h.2.2.2.2⟩

/-- Witness for c3_amended at dbCascade with a back-dated purchase. -/
theorem c3_amended_witness :
    (addPurchase dbCascade { day := 20220110, tod := 3600 } 10 1 4500 none
      (some 20220105) none).isOk = true := by
  rw [(c3_amended dbCascade { day := 20220110, tod := 3600 } 10 1 4500 none
    (some 20220105) none (by decide) (by decide) (by decide)).1]
  rfl

/-! ### C9 -/

/-- The invariant of §3: at most one open (LeftGroup NULL) Memberships row
per (user, group) pair — no two open rows agree on both uid and gid. -/
def openOnce (db : DB) : Prop :=
  (db.memberships.filter (fun m => m.left == none)).Pairwise
    (fun a b => ¬(a.uid = b.uid ∧ a.gid = b.gid))

instance (db : DB) : Decidable (openOnce db) := by
  unfold openOnce; infer_instance

/-- Closing the open rows of one (user, group) pair commutes with the
open-row filter: the open rows afterwards are the open rows that were not
targeted. -/
theorem filter_open_map_close (ms : List MembershipRow) (uid0 gid0 day : Nat) :
    ((ms.map (fun m =>
        if m.uid == uid0 && m.gid == gid0 && m.left == none then
          { m with left := some day }
        else m)).filter (fun m => m.left == none))
      = ms.filter (fun m => !(m.uid == uid0 && m.gid == gid0) && m.left == none) := by
  induction ms with
  | nil => rfl
  | cons m rest ih =>
    cases hml : m.left with
    | some l =>
      simp only [List.map_cons, List.filter_cons]
      simpa [hml] using ih
    | none =>
      by_cases hpair : (m.uid == uid0 && m.gid == gid0) = true
      · simp only [List.map_cons, List.filter_cons]
        simpa [hml, hpair] using ih
      · have hpair' : (m.uid == uid0 && m.gid == gid0) = false :=
          Bool.eq_false_iff.mpr hpair
        simp only [List.map_cons, List.filter_cons]
        simpa [hml, hpair'] using ih

/-- A present open row of the pair makes isInGroup true, provided the
user exists (so the username resolves to the uid of a stored user). -/
theorem isInGroup_of_open_row (db : DB) (uname gid : Nat) (a : MembershipRow)
    (h1 : userExists db uname = true) (hmem : a ∈ db.memberships)
    (hopen : (a.left == none) = true) (hag : a.gid = gid)
    (hau : a.uid = resolveUid db uname) : isInGroup db uname gid = true := by
  rcases hresolve : db.users.find? (fun u => u.uname == uname) with _ | u0
  · rcases List.any_eq_true.mp h1 with ⟨u, hu, hun⟩
    have hsome : (db.users.find? (fun u => u.uname == uname)).isSome :=
      List.find?_isSome.mpr ⟨u, hu, hun⟩
    rw [hresolve] at hsome
    simp at hsome
  · have hu0 := List.find?_some hresolve
    have hu0mem := List.mem_of_find?_eq_some hresolve
    have hau' : a.uid = u0.uid := by
      rw [hau]; simp [resolveUid, hresolve]
    refine List.any_eq_true.mpr ⟨a, hmem, ?_⟩
    simp only [Bool.and_eq_true]
    exact ⟨⟨by simp [hag], hopen⟩,
      List.any_eq_true.mpr ⟨u0, hu0mem, by simp [hau', hu0]⟩⟩

/-- joinGroup preserves the open-membership invariant: it refuses to
insert while an open row for the pair exists (isInGroup check), so the
appended open row clashes with no existing open row. -/
theorem joinGroup_pres (db db' : DB) (now : Instant) (uname gid : Nat)
    (h : openOnce db) (hok : joinGroup db now uname gid = .ok db') : openOnce db' := by
  unfold joinGroup at hok
  by_cases h1 : userExists db uname
  swap
  · simp [h1] at hok
  by_cases h2 : groupExists db gid
  swap
  · simp [h1, h2] at hok
  by_cases h3 : isInGroup db uname gid
  · simp [h1, h2, h3] at hok
  cases hfind : db.groups.find? (fun gr => gr.gid == gid) with
  | none => simp [h1, h2, h3, hfind] at hok
  | some gr =>
    simp only [h1, h2, h3, hfind, Bool.not_true, Bool.false_eq_true, if_false,
      if_true] at hok
    cases hcap : (match gr.maxUsers with
        | some mx => decide ((listGroupMembers db gid).length ≥ mx)
        | none => false) with
    | true => rw [hcap] at hok; simp at hok
    | false =>
      rw [hcap] at hok
      by_cases hst : gr.status == "locked"
      · simp [hst] at hok
      · simp only [hst, Bool.false_eq_true, if_false, Except.ok.injEq] at hok
        subst hok
        unfold openOnce
        simp only [List.filter_append]
        rw [List.pairwise_append]
        refine ⟨h, by simp, ?_⟩
        intro a ha b hb
        simp only [List.filter_cons, List.filter_nil] at hb
        simp only [show ((none : Option Nat) == none) = true from rfl, if_true] at hb
        rcases List.mem_singleton.mp hb with rfl
        rintro ⟨hau, hag⟩
        rcases List.mem_filter.mp ha with ⟨hmem, hopen⟩
        exact absurd (isInGroup_of_open_row db uname gid a h1 hmem hopen hag hau) h3

/-- leaveGroup preserves the invariant: closing rows only shrinks the set
of open rows. -/
theorem leaveGroup_pres (db db' : DB) (now : Instant) (uname gid : Nat)
    (h : openOnce db) (hok : leaveGroup db now uname gid = .ok db') : openOnce db' := by
  unfold leaveGroup at hok
  by_cases h1 : userExists db uname
  swap
  · simp [h1] at hok
  by_cases h2 : groupExists db gid
  swap
  · simp [h1, h2] at hok
  by_cases h3 : isInGroup db uname gid
  swap
  · simp [h1, h2, h3] at hok
  simp only [h1, h2, h3, Bool.not_true, Bool.false_eq_true, if_false, if_true,
    Except.ok.injEq] at hok
  subst hok
  unfold openOnce
  rw [filter_open_map_close]
  rw [show (fun m : MembershipRow => !(m.uid == resolveUid db uname && m.gid == gid) && m.left == none)
    = (fun m : MembershipRow => !(m.uid == resolveUid db uname && m.gid == gid) && (m.left == none)) from rfl]
  have : (db.memberships.filter (fun m =>
      !(m.uid == resolveUid db uname && m.gid == gid) && m.left == none)).Sublist
      (db.memberships.filter (fun m => m.left == none)) := by
    rw [← List.filter_filter]
    exact List.filter_sublist _
  exact List.Pairwise.sublist this h

/-- Binding an error value in the Except monad short-circuits. -/
theorem error_bind {ε α β : Type} (e : ε) (f : α → Except ε β) :
    (Except.error (α := α) e >>= f) = Except.error e := rfl

/-- addIncentive never touches the Memberships table. -/
theorem addIncentive_memberships (db db' : DB) (now : Instant) (uname iid : Nat)
    (notes : Option String) (date : Option Nat)
    (hok : addIncentive db now uname iid notes date = .ok db') :
    db'.memberships = db.memberships := by
  unfold addIncentive at hok
  by_cases h1 : userExists db uname
  swap
  · simp [h1] at hok
  by_cases h2 : incentiveExists db iid
  swap
  · simp [h1, h2] at hok
  simp only [h1, h2, Bool.not_true, Bool.false_eq_true, if_false,
    Except.ok.injEq] at hok
  subst hok
  rfl

/-- The cascade fold never touches the Memberships table. -/
theorem cascade_fold_memberships (now : Instant) (uname : Nat) (note : String) :
    ∀ (defs : List IncentiveDef) (db db' : DB),
      defs.foldlM (fun acc ia => addIncentive acc now uname ia.iid (some note) none) db =
        .ok db' → db'.memberships = db.memberships := by
  intro defs
  induction defs with
  | nil =>
    intro db db' hok
    simp only [List.foldlM_nil] at hok
    cases hok
    rfl
  | cons ia rest ih =>
    intro db db' hok
    rw [List.foldlM_cons] at hok
    cases hstep : addIncentive db now uname ia.iid (some note) none with
    | error e => rw [hstep, error_bind] at hok; cases hok
    | ok db1 =>
      rw [hstep, ok_bind] at hok
      rw [ih db1 db' hok, addIncentive_memberships db db1 now uname ia.iid _ none hstep]

/-- addPurchase never touches the Memberships table. -/
theorem addPurchase_memberships (db db' : DB) (now : Instant) (uname gid amount : Nat)
    (store : Option String) (date : Option Nat) (notes : Option String)
    (hok : addPurchase db now uname gid amount store date notes = .ok db') :
    db'.memberships = db.memberships := by
  unfold addPurchase at hok
  by_cases h1 : userExists db uname
  swap
  · simp [h1] at hok
  by_cases h2 : groupExists db gid
  swap
  · simp [h1, h2] at hok
  by_cases h3 : isInGroup db uname gid
  swap
  · simp [h1, h2, h3] at hok
  simp only [h1, h2, h3, Bool.not_true, Bool.false_eq_true, if_false, if_true] at hok
  cases hfold : (cascadeDefs db gid now).foldlM
      (fun acc ia => addIncentive acc now uname ia.iid
        (some (noteFor (date.getD now.day))) none) db with
  | error e => rw [hfold, error_bind] at hok; cases hok
  | ok db2 =>
    rw [hfold, ok_bind] at hok
    cases hok
    exact cascade_fold_memberships now uname _ _ db db2 hfold

/-- The shape of a successful leaveGroup: the open rows of the pair are
closed in place by List.map; nothing else changes. -/
theorem leaveGroup_ok_shape (db db' : DB) (now : Instant) (uname gid : Nat)
    (hok : leaveGroup db now uname gid = .ok db') :
    db' = { db with
      memberships := db.memberships.map (fun m =>
        if m.uid == resolveUid db uname && m.gid == gid && m.left == none then
          { m with left := some now.day }
        else m) } := by
  unfold leaveGroup at hok
  by_cases h1 : userExists db uname
  swap
  · simp [h1] at hok
  by_cases h2 : groupExists db gid
  swap
  · simp [h1, h2] at hok
  by_cases h3 : isInGroup db uname gid
  swap
  · simp [h1, h2, h3] at hok
  simp only [h1, h2, h3, Bool.not_true, Bool.false_eq_true, if_false, if_true,
    Except.ok.injEq] at hok
  exact hok.symm

/-- lockGroup and unlockGroup never touch the Memberships table. -/
theorem lock_unlock_memberships (db : DB) (gid : Nat) :
    (∀ db', lockGroup db gid = .ok db' → db'.memberships = db.memberships) ∧
    (∀ db', unlockGroup db gid = .ok db' → db'.memberships = db.memberships) := by
  constructor <;> intro db' hok <;>
    [unfold lockGroup at hok; unfold unlockGroup at hok] <;>
    by_cases h2 : groupExists db gid <;>
    simp only [h2, Bool.not_true, Bool.not_false, Bool.false_eq_true,
      Bool.true_eq_false, if_false, if_true, Except.ok.injEq] at hok <;>
    first
    | (subst hok; rfl)
    | cases hok

/-- Folding joinGroup over a member list preserves the invariant. -/
theorem foldlM_join_pres (now : Instant) (gid : Nat) :
    ∀ (members : List Nat) (db db' : DB), openOnce db →
      members.foldlM (fun acc w => joinGroup acc now w gid) db = .ok db' →
      openOnce db' := by
  intro members
  induction members with
  | nil =>
    intro db db' h hok
    simp only [List.foldlM_nil] at hok
    cases hok
    exact h
  | cons w rest ih =>
    intro db db' h hok
    rw [List.foldlM_cons] at hok
    cases hstep : joinGroup db now w gid with
    | error e => rw [hstep, error_bind] at hok; cases hok
    | ok db1 =>
      rw [hstep, ok_bind] at hok
      exact ih db1 db' (joinGroup_pres db db1 now w gid h hstep) hok

/-- Inverting a successful bind in the Except monad. -/
theorem bind_ok_inv {ε α β : Type} (x : Except ε α) (f : α → Except ε β) (b : β)
    (h : (x >>= f) = .ok b) : ∃ a, x = .ok a ∧ f a = .ok b := by
  cases x with
  | error e => rw [error_bind] at h; cases h
  | ok a => rw [ok_bind] at h; exact ⟨a, rfl, h⟩

/-- createGroup preserves the invariant: the group insert and the lock
step leave Memberships untouched, and each initial join goes through
joinGroup. -/
theorem createGroup_pres (db db' : DB) (now : Instant)
    (name description status : String) (mx : Option Nat) (members : List Nat)
    (gid' : Nat) (h : openOnce db)
    (hok : createGroup db now name description status mx members = .ok (db', gid')) :
    openOnce db' := by
  unfold createGroup at hok
  by_cases hs : (status == "open" || status == "locked") = true
  swap
  · simp [hs] at hok
  simp only [hs, Bool.not_true, Bool.false_eq_true, if_false] at hok
  obtain ⟨db2, hfold, hrest⟩ := bind_ok_inv _ _ _ hok
  have h2 : openOnce db2 := by
    refine foldlM_join_pres now db.nextId members _ db2 ?_ hfold
    exact h
  by_cases hlk : (status == "locked") = true
  · simp only [hlk, if_true] at hrest
    obtain ⟨db3, hlock, hp⟩ := bind_ok_inv _ _ _ hrest
    have hp' : (Except.ok (ε := InputError) (db3, db.nextId)) = .ok (db', gid') := hp
    have hpair : (db3, db.nextId) = (db', gid') := by injection hp'
    have h13 : db3 = db' := congrArg Prod.fst hpair
    subst h13
    unfold openOnce
    rw [(lock_unlock_memberships db2 db.nextId).1 db3 hlock]
    exact h2
  · simp only [hlk, Bool.false_eq_true, if_false] at hrest
    obtain ⟨y, hy, hp⟩ := bind_ok_inv _ _ _ hrest
    have hy' : (Except.ok (ε := InputError) db2) = .ok y := hy
    have h15 : db2 = y := by injection hy'
    subst h15
    have hp' : (Except.ok (ε := InputError) (db2, db.nextId)) = .ok (db', gid') := hp
    have hpair : (db2, db.nextId) = (db', gid') := by injection hp'
    have h16 : db2 = db' := congrArg Prod.fst hpair
    subst h16
    exact h2

/-- Claim C9.  Every operation preserves the invariant that each
(user, group) pair has at most one open membership: joinGroup refuses to
insert a new interval while an open one exists (Already In Group), and
leaveGroup closes the open interval by setting its left-date, never
deleting a row (the row count is unchanged; targeted rows reappear closed
with the current date, untargeted rows reappear unchanged).  addPurchase,
addIncentive, lockGroup, unlockGroup and createGroup preserve the
invariant as well. -/
theorem c9_invariant (db : DB) (now : Instant) (uname gid : Nat)
    (name description status : String) (mx : Option Nat) (members : List Nat)
    (h : openOnce db) :
    (isInGroup db uname gid = true → ∀ db', joinGroup db now uname gid ≠ .ok db') ∧
    (∀ db', joinGroup db now uname gid = .ok db' → openOnce db') ∧
    (∀ db', leaveGroup db now uname gid = .ok db' →
      openOnce db' ∧ db'.memberships.length = db.memberships.length ∧
      ∀ m ∈ db.memberships,
        (m.uid = resolveUid db uname ∧ m.gid = gid ∧ m.left = none →
          { m with left := some now.day } ∈ db'.memberships) ∧
        (¬(m.uid = resolveUid db uname ∧ m.gid = gid ∧ m.left = none) →
          m ∈ db'.memberships)) ∧
    (∀ db' amount store date notes,
      addPurchase db now uname gid amount store date notes = .ok db' → openOnce db') ∧
    (∀ db' iid notes date, addIncentive db now uname iid notes date = .ok db' →
      openOnce db') ∧
    (∀ db', lockGroup db gid = .ok db' → openOnce db') ∧
    (∀ db', unlockGroup db gid = .ok db' → openOnce db') ∧
    (∀ db' gid', createGroup db now name description status mx members =
      .ok (db', gid') → openOnce db') := by
  refine ⟨?_, ?_, ?_, ?_, ?_, ?_, ?_, ?_⟩
  · intro hin db' hok
    unfold joinGroup at hok
    by_cases h1 : userExists db uname
    · by_cases h2 : groupExists db gid
      · simp [h1, h2, hin] at hok
      · simp [h1, h2] at hok
    · simp [h1] at hok
  · intro db' hok
    exact joinGroup_pres db db' now uname gid h hok
  · intro db' hok
    have hshape := leaveGroup_ok_shape db db' now uname gid hok
    subst hshape
    refine ⟨leaveGroup_pres db _ now uname gid h hok, by simp, ?_⟩
    intro m hm
    constructor
    · rintro ⟨ha, hb, hc⟩
      have := List.mem_map_of_mem (fun m : MembershipRow =>
        if m.uid == resolveUid db uname && m.gid == gid && m.left == none then
          { m with left := some now.day }
        else m) hm
      simpa [ha, hb, hc] using this
    · intro hnot
      have hc : (m.uid == resolveUid db uname && m.gid == gid && m.left == none) = false := by
        rcases Bool.eq_false_or_eq_true
            (m.uid == resolveUid db uname && m.gid == gid && m.left == none) with hx | hx
        · exact absurd (by simpa [and_assoc] using hx) hnot
        · exact hx
      have := List.mem_map_of_mem (fun m : MembershipRow =>
        if m.uid == resolveUid db uname && m.gid == gid && m.left == none then
          { m with left := some now.day }
        else m) hm
      simpa [hc] using this
  · intro db' amount store date notes hok
    unfold openOnce
    rw [addPurchase_memberships db db' now uname gid amount store date notes hok]
    exact h
  · intro db' iid notes date hok
    unfold openOnce
    rw [addIncentive_memberships db db' now uname iid notes date hok]
    exact h
  · intro db' hok
    unfold openOnce
    rw [(lock_unlock_memberships db gid).1 db' hok]
    exact h
  · intro db' hok
    unfold openOnce
    rw [(lock_unlock_memberships db gid).2 db' hok]
    exact h
  · intro db' gid' hok
    exact createGroup_pres db db' now name description status mx members gid' h hok

/-- The store after the witness join of user 20 into group 1. -/
def dbMemberJoined : DB :=
  { dbMember with
    memberships := dbMember.memberships ++
      [{ uid := 2, gid := 1, joined := 20240301, left := none }] }

/-- Witness for c9_invariant: joining dbMember (which satisfies the
invariant) yields a store that still satisfies it. -/
theorem c9_invariant_witness : openOnce dbMemberJoined :=
  (c9_invariant dbMember { day := 20240301, tod := 1 } 20 1 "" "" "open" none []
    (by decide)).2.1 dbMemberJoined rfl

/-! ### C10 -/

/-- A user named by a true userExists check can be found, is stored, and
carries the requested username. -/
theorem userExists_find (db : DB) (w : Nat) (h : userExists db w = true) :
    ∃ u, db.users.find? (fun v => v.uname == w) = some u ∧ u ∈ db.users ∧ u.uname = w := by
  cases hfind : db.users.find? (fun v => v.uname == w) with
  | none =>
    rcases List.any_eq_true.mp h with ⟨u, hu, hun⟩
    have hsome : (db.users.find? (fun v => v.uname == w)).isSome :=
      List.find?_isSome.mpr ⟨u, hu, hun⟩
    rw [hfind] at hsome
    simp at hsome
  | some u =>
    exact ⟨u, rfl, List.mem_of_find?_eq_some hfind,
      by simpa using List.find?_some hfind⟩

/-- With duplicate-free user ids, the by-uid lookup of a stored user
returns exactly that user. -/
theorem find?_user_by_uid (users : List User) (u : User) (hmem : u ∈ users)
    (hnodup : (users.map (·.uid)).Nodup) :
    users.find? (fun v => v.uid == u.uid) = some u := by
  induction users with
  | nil => cases hmem
  | cons v rest ih =>
    rcases List.mem_cons.mp hmem with rfl | hmem'
    · simp [List.find?_cons]
    · have hne : (v.uid == u.uid) = false := by
        rcases Bool.eq_false_or_eq_true (v.uid == u.uid) with hx | hx
        swap
        · exact hx
        · exfalso
          have : v.uid = u.uid := by simpa using hx
          have huin : u.uid ∈ rest.map (·.uid) := List.mem_map_of_mem (·.uid) hmem'
          rw [List.map_cons, List.nodup_cons] at hnodup
          exact hnodup.1 (this ▸ huin)
      rw [List.find?_cons, hne]
      exact ih hmem' (by rw [List.map_cons, List.nodup_cons] at hnodup; exact hnodup.2)

/-- find? skips a prefix on which the predicate is everywhere false. -/
theorem find?_append_none {α : Type} (p : α → Bool) (l1 l2 : List α)
    (h : ∀ x ∈ l1, p x = false) : (l1 ++ l2).find? p = l2.find? p := by
  induction l1 with
  | nil => rfl
  | cons a rest ih =>
    rw [List.cons_append, List.find?_cons, h a (List.mem_cons_self a rest)]
    exact ih (fun x hx => h x (List.mem_cons_of_mem a hx))

/-- Joining a fresh-group member list one by one: provided every pending
member exists, none is in the group yet, the group is open and the cap
leaves room for all of them, every join succeeds and the Memberships
table gains exactly one open row per member, in order. -/
theorem joinAll (now : Instant) (gid : Nat) :
    ∀ (pending : List Nat) (db : DB) (gr : GroupRow),
      pending.Nodup →
      (∀ w ∈ pending, userExists db w = true) →
      (db.users.map (·.uid)).Nodup →
      (∀ w ∈ pending, isInGroup db w gid = false) →
      db.groups.find? (fun g => g.gid == gid) = some gr →
      gr.status = "open" →
      (gr.maxUsers = none ∨ ∃ capVal, gr.maxUsers = some capVal ∧
        (listGroupMembers db gid).length + pending.length ≤ capVal) →
      ∃ db', pending.foldlM (fun acc w => joinGroup acc now w gid) db = .ok db' ∧
        db'.memberships = db.memberships ++
          pending.map (fun w =>
            ({ uid := resolveUid db w, gid := gid,
               joined := now.day, left := none } : MembershipRow)) ∧
        db'.groups = db.groups ∧ db'.users = db.users := by
  intro pending
  induction pending with
  | nil =>
    intro db gr _ _ _ _ _ _ _
    exact ⟨db, by simp only [List.foldlM_nil]; rfl, by simp, rfl, rfl⟩
  | cons w rest ih =>
    intro db gr hnd hex huid hnotin hfind hstatus hcap
    obtain ⟨uw, hresolve, huwmem, huwname⟩ :=
      userExists_find db w (hex w (List.mem_cons_self w rest))
    have hruid : resolveUid db w = uw.uid := by simp [resolveUid, hresolve]
    have hge : groupExists db gid = true :=
      List.any_eq_true.mpr ⟨gr, List.mem_of_find?_eq_some hfind,
        by simpa using List.find?_some hfind⟩
    have hcapb : (match gr.maxUsers with
        | some mx => decide ((listGroupMembers db gid).length ≥ mx)
        | none => false) = false := by
      rcases hcap with hnone | ⟨capVal, hcv, hle⟩
      · rw [hnone]
      · rw [hcv]
        simp only [decide_eq_false_iff_not, not_le]
        simp only [List.length_cons] at hle
        omega
    have hlkb : (gr.status == "locked") = false := by rw [hstatus]; decide
    have hjoin : joinGroup db now w gid = .ok
        { db with memberships := db.memberships ++
            [{ uid := resolveUid db w, gid := gid, joined := now.day, left := none }] } := by
      unfold joinGroup
      rw [hex w (List.mem_cons_self w rest), hge,
        hnotin w (List.mem_cons_self w rest), hfind]
      simp [hcapb, hlkb]
    -- the store after this single join
    set db1 : DB := { db with memberships := db.memberships ++
        [{ uid := resolveUid db w, gid := gid, joined := now.day, left := none }] }
      with hdb1
    have hmembers1 : listGroupMembers db1 gid = listGroupMembers db gid ++ [uw] := by
      have husers1 : db1.users = db.users := by rw [hdb1]
      have hms1 : db1.memberships = db.memberships ++
          [{ uid := resolveUid db w, gid := gid, joined := now.day, left := none }] := by
        rw [hdb1]
      unfold listGroupMembers userByUid
      rw [hms1, husers1, List.filter_append, List.filterMap_append]
      congr 1
      rw [show List.filter (fun m => m.gid == gid && m.left == none)
          [({ uid := resolveUid db w, gid := gid,
              joined := now.day, left := none } : MembershipRow)] =
          [{ uid := resolveUid db w, gid := gid, joined := now.day, left := none }] by simp]
      simp only [List.filterMap]
      rw [hruid, find?_user_by_uid db.users uw huwmem huid]
    have hnotin1 : ∀ v ∈ rest, isInGroup db1 v gid = false := by
      intro v hv
      rcases Bool.eq_false_or_eq_true (isInGroup db1 v gid) with hx | hx
      swap
      · exact hx
      exfalso
      rcases List.any_eq_true.mp hx with ⟨m, hm, hcond⟩
      rw [hdb1] at hm
      simp only at hm
      rcases List.mem_append.mp hm with hm' | hm'
      · -- an old row would witness isInGroup on db itself
        have : isInGroup db v gid = true := List.any_eq_true.mpr ⟨m, hm', hcond⟩
        rw [hnotin v (List.mem_cons_of_mem w hv)] at this
        cases this
      · -- the new row resolves to the username w, not v
        rcases List.mem_singleton.mp hm' with rfl
        simp only [Bool.and_eq_true] at hcond
        rcases hcond with ⟨_, husers⟩
        rcases List.any_eq_true.mp husers with ⟨u, humem, hucond⟩
        simp only [Bool.and_eq_true] at hucond
        rcases hucond with ⟨huuid, huname⟩
        have huuid' : u.uid = uw.uid := by simpa [hruid] using huuid
        have : u = uw := List.inj_on_of_nodup_map huid humem huwmem huuid'
        subst this
        have : u.uname = v := by simpa using huname
        rw [huwname] at this
        subst this
        exact (List.nodup_cons.mp hnd).1 hv
    have hcap1 : gr.maxUsers = none ∨ ∃ capVal, gr.maxUsers = some capVal ∧
        (listGroupMembers db1 gid).length + rest.length ≤ capVal := by
      rcases hcap with hnone | ⟨capVal, hcv, hle⟩
      · exact Or.inl hnone
      · refine Or.inr ⟨capVal, hcv, ?_⟩
        rw [hmembers1]
        simp only [List.length_append, List.length_singleton]
        simp only [List.length_cons] at hle
        omega
    obtain ⟨db', hfold, hms, hgs, hus⟩ := ih db1 gr (List.nodup_cons.mp hnd).2
      (fun v hv => hex v (List.mem_cons_of_mem w hv)) huid hnotin1 hfind hstatus hcap1
    refine ⟨db', ?_, ?_, ?_, ?_⟩
    · rw [List.foldlM_cons, hjoin, ok_bind]
      exact hfold
    · rw [hms, hdb1]
      simp only [List.map_cons, List.append_assoc, List.singleton_append]
      rfl
    · rw [hgs, hdb1]
    · rw [hus, hdb1]

/-- Claim C10.  createGroup with a cap smaller than the initial member
list silently raises the cap to the list length (no error); the group row
is inserted with status open, each initial member is joined while the
group is still open, and only then is the requested locked status
applied.  Hence a group created as locked admits its entire initial
member list: the call succeeds, the final group row is locked with the
raised cap, and every initial member ends up with an open membership. -/
theorem c10_create_locked (db : DB) (now : Instant) (name description : String)
    (mx : Option Nat) (members : List Nat)
    (hnd : members.Nodup)
    (hex : ∀ w ∈ members, userExists db w = true)
    (huid : (db.users.map (·.uid)).Nodup)
    (hgf : ∀ gr ∈ db.groups, gr.gid ≠ db.nextId)
    (hmf : ∀ m ∈ db.memberships, m.gid ≠ db.nextId) :
    ∃ db', createGroup db now name description "locked" mx members =
        .ok (db', db.nextId) ∧
      (∃ gr ∈ db'.groups, gr.gid = db.nextId ∧ gr.status = "locked" ∧
        gr.maxUsers = (match mx with
          | some x => some (if members.length > x then members.length else x)
          | none => none)) ∧
      ∀ w ∈ members, ∃ m ∈ db'.memberships,
        m.gid = db.nextId ∧ m.left = none ∧
        ∃ u ∈ db.users, u.uname = w ∧ m.uid = u.uid := by
  -- the freshly inserted group row and the store holding it
  set newg : GroupRow :=
    { gid := db.nextId, name := name, description := description,
      status := "open",
      maxUsers :=
        match mx with
        | some x => some (if members.length > x then members.length else x)
        | none => none }
    with hnewg
  set db1 : DB :=
    { db with groups := db.groups ++ [newg], nextId := db.nextId + 1 }
    with hdb1
  have hex1 : ∀ w ∈ members, userExists db1 w = true := fun w hw => hex w hw
  have huid1 : (db1.users.map (·.uid)).Nodup := huid
  have hnotin1 : ∀ w ∈ members, isInGroup db1 w db.nextId = false := by
    intro w hw
    rcases Bool.eq_false_or_eq_true (isInGroup db1 w db.nextId) with hx | hx
    swap
    · exact hx
    exfalso
    rcases List.any_eq_true.mp hx with ⟨m, hm, hcond⟩
    have hm' : m ∈ db.memberships := hm
    simp only [Bool.and_eq_true] at hcond
    have hgid : m.gid = db.nextId := by simpa using hcond.1.1
    exact hmf m hm' hgid
  have hfindg : db1.groups.find? (fun g => g.gid == db.nextId) = some newg := by
    show (db.groups ++ [newg]).find? (fun g => g.gid == db.nextId) = some newg
    rw [find?_append_none _ _ _ (fun g hg => by simpa using hgf g hg)]
    have hb : (newg.gid == db.nextId) = true := by simp [hnewg]
    rw [List.find?_cons, hb]
  have hempty : listGroupMembers db1 db.nextId = [] := by
    have hfe : db.memberships.filter (fun m => m.gid == db.nextId && m.left == none) = [] := by
      rw [List.filter_eq_nil_iff]
      intro m hm
      simp [hmf m hm]
    show (db.memberships.filter
      (fun m => m.gid == db.nextId && m.left == none)).filterMap
        (fun m => userByUid db1 m.uid) = []
    rw [hfe]
    rfl
  have hcap1 : newg.maxUsers = none ∨ ∃ capVal, newg.maxUsers = some capVal ∧
      (listGroupMembers db1 db.nextId).length + members.length ≤ capVal := by
    rw [hnewg]
    cases mx with
    | none => exact Or.inl rfl
    | some x =>
      refine Or.inr ⟨if members.length > x then members.length else x, rfl, ?_⟩
      rw [hempty]
      simp only [List.length_nil, Nat.zero_add]
      split <;> omega
  obtain ⟨db2, hfold, hms, hgs, hus⟩ := joinAll now db.nextId members db1 newg
    hnd hex1 huid1 hnotin1 hfindg (by rw [hnewg]) hcap1
  have hnewg2 : newg ∈ db2.groups := by
    rw [hgs]
    show newg ∈ db.groups ++ [newg]
    exact List.mem_append_right _ (List.mem_singleton.mpr rfl)
  have hge2 : groupExists db2 db.nextId = true :=
    List.any_eq_true.mpr ⟨newg, hnewg2, by simp [hnewg]⟩
  have hlock : lockGroup db2 db.nextId = .ok
      { db2 with groups := db2.groups.map (fun gr =>
          if gr.gid == db.nextId then { gr with status := "locked" } else gr) } := by
    unfold lockGroup
    rw [hge2]
    simp
  have hchain : createGroup db now name description "locked" mx members =
      (members.foldlM (fun acc w => joinGroup acc now w db.nextId) db1 >>= fun dbx =>
        lockGroup dbx db.nextId >>= fun dby => pure (dby, db.nextId)) := rfl
  refine ⟨{ db2 with groups := db2.groups.map (fun gr =>
      if gr.gid == db.nextId then { gr with status := "locked" } else gr) },
    ?_, ?_, ?_⟩
  · rw [hchain, hfold, ok_bind, hlock, ok_bind]
    rfl
  · refine ⟨{ newg with status := "locked" }, ?_, rfl, rfl, by rw [hnewg]⟩
    show { newg with status := "locked" } ∈ db2.groups.map (fun gr =>
      if gr.gid == db.nextId then { gr with status := "locked" } else gr)
    have := List.mem_map_of_mem (fun gr : GroupRow =>
      if gr.gid == db.nextId then { gr with status := "locked" } else gr) hnewg2
    simpa [hnewg] using this
  · intro w hw
    refine ⟨{ uid := resolveUid db1 w, gid := db.nextId,
              joined := now.day, left := none }, ?_, rfl, rfl, ?_⟩
    · show _ ∈ db2.memberships
      rw [hms]
      exact List.mem_append_right _ (List.mem_map_of_mem _ hw)
    · obtain ⟨u, hufind, humem, huname⟩ := userExists_find db w (hex w hw)
      refine ⟨u, humem, huname, ?_⟩
      show resolveUid db w = u.uid
      simp [resolveUid, hufind]

/-- The store for the createGroup witness: three users, no groups yet. -/
def dbCreate : DB :=
  { users := [{ uid := 1, uname := 10 }, { uid := 2, uname := 20 },
              { uid := 3, uname := 30 }],
    groups := [], memberships := [], purchases := [],
    incentivesAvailable := [], incentives := [], nextIns := 0, nextId := 5 }

/-- Witness for c10_create_locked: a locked group with cap 2 and three
initial members is created successfully. -/
theorem c10_create_locked_witness :
    (createGroup dbCreate { day := 20240101, tod := 1 } "flat" "" "locked"
      (some 2) [10, 20, 30]).isOk = true := by
  obtain ⟨db', hok, -, -⟩ := c10_create_locked dbCreate { day := 20240101, tod := 1 }
    "flat" "" (some 2) [10, 20, 30] (by decide) (by decide) (by decide)
    (by decide) (by decide)
  rw [hok]
  rfl

/-! ### C5

The two aggregate queries of calculateSettlements share the groupRows /
groupAgg shape.  The lemmas below characterize that shape: which
usernames survive the join, and what fact rows each username groups. -/

/-- filterMap distributes over flatMap. -/
theorem filterMap_flatMap_eq {α β γ : Type} (l : List α) (f : α → List β)
    (g : β → Option γ) :
    (l.flatMap f).filterMap g = l.flatMap (fun a => (f a).filterMap g) := by
  induction l with
  | nil => rfl
  | cons a rest ih => simp [List.flatMap_cons, List.filterMap_append, ih]

/-- filter distributes over flatMap. -/
theorem filter_flatMap_eq {α β : Type} (l : List α) (f : α → List β) (p : β → Bool) :
    (l.flatMap f).filter p = l.flatMap (fun a => (f a).filter p) := by
  induction l with
  | nil => rfl
  | cons a rest ih => simp [List.flatMap_cons, List.filter_append, ih]

/-- flatMap over a filtered list keeps only the chunks of kept elements. -/
theorem flatMap_filter_eq {α β : Type} (l : List α) (p : α → Bool) (g : α → List β) :
    (l.filter p).flatMap g = l.flatMap (fun a => if p a = true then g a else []) := by
  induction l with
  | nil => rfl
  | cons a rest ih =>
    cases hp : p a with
    | true => simp [List.filter_cons, hp, List.flatMap_cons, ih]
    | false => simp [List.filter_cons, hp, List.flatMap_cons, ih]

/-- flatMap respects pointwise equality of the chunk functions. -/
theorem flatMap_congr_mem {α β : Type} (l : List α) (f g : α → List β)
    (h : ∀ a ∈ l, f a = g a) : l.flatMap f = l.flatMap g := by
  induction l with
  | nil => rfl
  | cons a rest ih =>
    rw [List.flatMap_cons, List.flatMap_cons, h a (List.mem_cons_self a rest),
      ih (fun x hx => h x (List.mem_cons_of_mem a hx))]

/-- Sum of a mapped flatMap with a constant chunk. -/
theorem sum_map_flatMap_const {α β : Type} (l : List α) (c : List β) (g : β → Nat) :
    ((l.flatMap (fun _ => c)).map g).sum = l.length * (c.map g).sum := by
  induction l with
  | nil => simp
  | cons a rest ih =>
    simp only [List.flatMap_cons, List.map_append, List.sum_append, ih,
      List.length_cons]
    ring

/-- Length of a flatMap with a constant chunk. -/
theorem length_flatMap_const {α β : Type} (l : List α) (c : List β) :
    (l.flatMap (fun _ => c)).length = l.length * c.length := by
  induction l with
  | nil => simp
  | cons a rest ih =>
    simp only [List.flatMap_cons, List.length_append, ih, List.length_cons]
    ring

/-- The kept fact rows of one username chunk: filtering a left-joined and
tagged fact list by the row condition and projecting the facts yields the
kept facts. -/
theorem leftJoin_chunk {α : Type} (w : Nat) (itms : List α) (keep : α → Bool) :
    (((leftJoinRows itms).map (fun x => (w, x))).filter (fun r =>
        (match r.2 with
          | some x => keep x
          | none => true) && r.1 == w)).filterMap (·.2) = itms.filter keep := by
  unfold leftJoinRows
  by_cases h : itms.isEmpty
  · rw [if_pos h, List.isEmpty_iff.mp h]
    simp
  · rw [if_neg h]
    clear h
    induction itms with
    | nil => rfl
    | cons x xs ih =>
      simp only [List.map_cons, List.filter_cons]
      simp only [List.map_map] at ih ⊢
      by_cases hk : keep x = true <;> simp [hk, ih]

/-- Membership of a username in the joined row set of an aggregate query:
the user is reached via some membership row of the group (dates ignored)
and either has no fact rows at all (the NULL row survives every date
filter) or has at least one kept fact row. -/
theorem mem_groupRows_fst {α : Type} (db : DB) (gid : Nat) (items : Nat → List α)
    (keep : α → Bool) (w : Nat) :
    w ∈ (groupRows db gid items keep).map (·.1) ↔
      ∃ m ∈ db.memberships, m.gid = gid ∧ ∃ u, userByUid db m.uid = some u ∧
        u.uname = w ∧ (items u.uid = [] ∨ ∃ x ∈ items u.uid, keep x = true) := by
  unfold groupRows
  constructor
  · intro hw
    rcases List.mem_map.mp hw with ⟨r, hr, rfl⟩
    rcases List.mem_filter.mp hr with ⟨hjoin, hkeep⟩
    rcases List.mem_flatMap.mp hjoin with ⟨m, hm, hrow⟩
    rcases List.mem_filter.mp hm with ⟨hmm, hmg⟩
    cases hfind : userByUid db m.uid with
    | none => rw [hfind] at hrow; cases hrow
    | some u =>
      rw [hfind] at hrow
      rcases List.mem_map.mp hrow with ⟨x, hx, rfl⟩
      refine ⟨m, hmm, by simpa using hmg, u, hfind, rfl, ?_⟩
      unfold leftJoinRows at hx
      by_cases hitems : (items u.uid).isEmpty
      · exact Or.inl (List.isEmpty_iff.mp hitems)
      · rw [if_neg hitems] at hx
        rcases List.mem_map.mp hx with ⟨y, hy, rfl⟩
        exact Or.inr ⟨y, hy, by simpa using hkeep⟩
  · rintro ⟨m, hmm, hmg, u, hfind, rfl, hcases⟩
    apply List.mem_map.mpr
    rcases hcases with hnil | ⟨x, hx, hkeep⟩
    · refine ⟨(u.uname, none), List.mem_filter.mpr ⟨?_, by simp⟩, rfl⟩
      apply List.mem_flatMap.mpr
      refine ⟨m, List.mem_filter.mpr ⟨hmm, by simpa using hmg⟩, ?_⟩
      rw [hfind]
      show (u.uname, none) ∈ (leftJoinRows (items u.uid)).map (fun x => (u.uname, x))
      unfold leftJoinRows
      rw [hnil]
      simp
    · refine ⟨(u.uname, some x), List.mem_filter.mpr ⟨?_, by simpa using hkeep⟩, rfl⟩
      apply List.mem_flatMap.mpr
      refine ⟨m, List.mem_filter.mpr ⟨hmm, by simpa using hmg⟩, ?_⟩
      rw [hfind]
      show (u.uname, some x) ∈ (leftJoinRows (items u.uid)).map (fun x => (u.uname, x))
      unfold leftJoinRows
      rw [if_neg (by simp [List.isEmpty_iff]; exact List.ne_nil_of_mem hx)]
      exact List.mem_map_of_mem _ (List.mem_map_of_mem some hx)

/-- The fact rows grouped under one username, with unique usernames and
unique user ids: one copy of the kept fact rows of that user per
membership row of the user in the group — membership rows are not
deduplicated, so a rejoining user duplicates their facts. -/
theorem groupRows_filter_uname {α : Type} (db : DB) (gid : Nat) (items : Nat → List α)
    (keep : α → Bool) (u : User) (hu : u ∈ db.users)
    (h1 : (db.users.map (·.uname)).Nodup)
    (h2 : (db.users.map (·.uid)).Nodup) :
    ((groupRows db gid items keep).filter (·.1 == u.uname)).filterMap (·.2) =
      (db.memberships.filter (fun m => m.gid == gid && m.uid == u.uid)).flatMap
        (fun _ => (items u.uid).filter keep) := by
  unfold groupRows
  rw [List.filter_filter, filter_flatMap_eq, filterMap_flatMap_eq]
  rw [flatMap_filter_eq, flatMap_filter_eq]
  apply flatMap_congr_mem
  intro m _
  by_cases hg : (m.gid == gid) = true
  swap
  · rw [if_neg hg, if_neg (by simp only [Bool.and_eq_true]; rintro ⟨hx, -⟩; exact hg hx)]
  rw [if_pos hg]
  rw [show (m.gid == gid && m.uid == u.uid) = (m.uid == u.uid) from by rw [hg, Bool.true_and]]
  cases hfind : userByUid db m.uid with
  | none =>
    have hne : (m.uid == u.uid) = false := by
      rcases Bool.eq_false_or_eq_true (m.uid == u.uid) with hx | hx
      · exfalso
        have heq : m.uid = u.uid := by simpa using hx
        have hsome : (db.users.find? (fun v => v.uid == m.uid)).isSome :=
          List.find?_isSome.mpr ⟨u, hu, by simp [heq]⟩
        unfold userByUid at hfind
        rw [hfind] at hsome
        cases hsome
      · exact hx
    rw [hne]
    simp
  | some u2 =>
    have hu2mem : u2 ∈ db.users := List.mem_of_find?_eq_some hfind
    have hu2uid : u2.uid = m.uid := by simpa using List.find?_some hfind
    by_cases hn : u2.uname = u.uname
    · have : u2 = u := List.inj_on_of_nodup_map h1 hu2mem hu
        (by simpa using hn)
      subst this
      have hmu : (m.uid == u2.uid) = true := by simp [← hu2uid]
      rw [hmu, if_pos rfl]
      rw [List.filter_congr (fun r _ => Bool.and_comm _ _)]
      exact leftJoin_chunk u2.uname (items u2.uid) keep
    · have hfalse : ∀ r ∈ (leftJoinRows (items u2.uid)).map
          (fun x => (u2.uname, x)),
          ¬((fun r : Nat × Option α => r.1 == u.uname &&
            (match r.2 with
              | some x => keep x
              | none => true)) r = true) := by
        intro r hrr
        rcases List.mem_map.mp hrr with ⟨x, _, rfl⟩
        simp only [Bool.and_eq_true]
        rintro ⟨hwn, -⟩
        exact hn (by simpa using hwn)
      have hmu : (m.uid == u.uid) = false := by
        rcases Bool.eq_false_or_eq_true (m.uid == u.uid) with hx | hx
        · exfalso
          have heq : m.uid = u.uid := by simpa using hx
          have : u2 = u := List.inj_on_of_nodup_map h2 hu2mem hu
            (by rw [hu2uid, heq])
          exact hn (by rw [this])
        · exact hx
      rw [hmu]
      simp only [Bool.false_eq_true, if_false]
      rw [List.filter_eq_nil_iff.mpr hfalse]
      rfl

/-- The content of one row of the purchase-side aggregate query: with
well-formed users, a row whose username belongs to the stored user u
carries that user's membership-row count in the group times the sum and
count of the user's in-range purchases across all groups, and the
constant CALC_SHARE column. -/
theorem settleQ1_row (db : DB) (gid f t : Nat)
    (h1 : (db.users.map (·.uname)).Nodup) (h2 : (db.users.map (·.uid)).Nodup)
    (r : Q1Row) (hr : r ∈ settleQ1 db gid f t)
    (u : User) (hu : u ∈ db.users) (hn : u.uname = r.uname) :
    r.groupShare = calcShare db gid f t ∧
    r.totalPurchases =
      (db.memberships.filter (fun m => m.gid == gid && m.uid == u.uid)).length *
        (((purchaseItems db u.uid).filter
          (fun p => decide (f ≤ p.date) && decide (p.date ≤ t))).map (·.amount)).sum ∧
    r.countPurchases =
      (db.memberships.filter (fun m => m.gid == gid && m.uid == u.uid)).length *
        ((purchaseItems db u.uid).filter
          (fun p => decide (f ≤ p.date) && decide (p.date ≤ t))).length := by
  unfold settleQ1 at hr
  rcases List.mem_map.mp hr with ⟨pair, hpair, rfl⟩
  unfold groupAgg at hpair
  rcases List.mem_map.mp hpair with ⟨w, hw, rfl⟩
  simp only at hn
  subst hn
  have hch := groupRows_filter_uname db gid (purchaseItems db)
    (fun p => decide (f ≤ p.date) && decide (p.date ≤ t)) u hu h1 h2
  refine ⟨rfl, ?_, ?_⟩
  · show ((((groupRows db gid (purchaseItems db)
        (fun p => decide (f ≤ p.date) && decide (p.date ≤ t))).filter
          (·.1 == u.uname)).filterMap (·.2)).map (·.amount)).sum = _
    rw [hch]
    exact sum_map_flatMap_const _ _ _
  · show (((groupRows db gid (purchaseItems db)
        (fun p => decide (f ≤ p.date) && decide (p.date ≤ t))).filter
          (·.1 == u.uname)).filterMap (·.2)).length = _
    rw [hch]
    exact length_flatMap_const _ _

/-- Inversion of a successful calculateSettlements call. -/
theorem calculateSettlements_some (db : DB) (gid f t : Nat) (rows : List Settlement)
    (h : calculateSettlements db gid f t = some rows) :
    (settleQ1 db gid f t).length ≤ (settleQ2 db gid f t).length ∧
    rows = ((settleQ1 db gid f t).zip (settleQ2 db gid f t)).map (fun rr =>
      { uname := rr.1.uname, totalPurchases := rr.1.totalPurchases,
        countPurchases := rr.1.countPurchases, totalIncentives := rr.2.totalIncentives,
        countIncentives := rr.2.countIncentives,
        totalContribution := rr.1.totalPurchases + rr.2.totalIncentives,
        owes := ((match settleQ1 db gid f t with
          | [] => 0
          | r :: _ => r.groupShare.getD 0 : Nat) : Int) -
          ((rr.1.totalPurchases : Int) + (rr.2.totalIncentives : Int)) }) := by
  unfold calculateSettlements at h
  by_cases hlen : (settleQ1 db gid f t).length ≤ (settleQ2 db gid f t).length
  · simp only [hlen, if_true, Option.some.injEq] at h
    exact ⟨hlen, h.symm⟩
  · simp [hlen] at h

/-- The username column of the purchase-side aggregate: the sorted,
deduplicated usernames of the joined row set. -/
theorem settleQ1_unames (db : DB) (gid f t : Nat) :
    (settleQ1 db gid f t).map (·.uname) =
      List.insertionSort (· ≤ ·) (((groupRows db gid (purchaseItems db)
        (fun p => decide (f ≤ p.date) && decide (p.date ≤ t))).map (·.1)).dedup) := by
  unfold settleQ1 groupAgg
  rw [List.map_map, List.map_map]
  exact List.map_id _

/-- A group whose only member left before the queried range and has no
purchases at all. -/
def dbStale : DB :=
  { users := [{ uid := 1, uname := 10 }],
    groups := [{ gid := 1, name := "g", description := "", status := "open", maxUsers := none }],
    memberships := [{ uid := 1, gid := 1, joined := 20230101, left := some 20230131 }],
    purchases := [], incentivesAvailable := [], incentives := [], nextIns := 0, nextId := 2 }

/-- Claim C5 counterexample.  The claim states the report has one row per
member active at some point in the range (per the §4.1 activity rule).
On dbStale with range 2023-06-01..2023-06-30 the activity rule matches
nobody (the only member left 2023-01-31), yet calculateSettlements
returns one row for that member: its membership roster ignores dates. -/
theorem c5_counterexample :
    countMembers dbStale 1 20230601 20230630 = 0 ∧
    calculateSettlements dbStale 1 20230601 20230630 =
      some [{ uname := 10, totalPurchases := 0, countPurchases := 0,
              totalIncentives := 0, countIncentives := 0,
              totalContribution := 0, owes := 0 }] :=
  ⟨rfl, rfl⟩

/-- Claim C5 as amended.  With unique usernames and user ids, a
successful calculateSettlements call returns rows ordered ascending by
username without duplicates; a username appears iff its user has some
membership row in the group (regardless of the date range) and either has
no purchases at all or has at least one purchase dated in [from, to] in
any group; each row satisfies totalContribution = totalPurchases +
totalIncentives and owes = groupShare - totalContribution with the NULL
share coerced to 0; a row's totalPurchases is the number of the user's
membership rows in the group times the sum of the user's in-range
purchases across all groups; and totalIncentives / countIncentives are
taken from the incentive-side aggregate row with the same index, not
necessarily the same member. -/
theorem c5_amended (db : DB) (gid f t : Nat) (rows : List Settlement)
    (h1 : (db.users.map (·.uname)).Nodup)
    (h2 : (db.users.map (·.uid)).Nodup)
    (hok : calculateSettlements db gid f t = some rows) :
    List.Sorted (· ≤ ·) (rows.map (·.uname)) ∧
    (rows.map (·.uname)).Nodup ∧
    (∀ w, w ∈ rows.map (·.uname) ↔
      ∃ u ∈ db.users, u.uname = w ∧
        (∃ m ∈ db.memberships, m.gid = gid ∧ m.uid = u.uid) ∧
        (purchaseItems db u.uid = [] ∨
          ∃ p ∈ purchaseItems db u.uid, f ≤ p.date ∧ p.date ≤ t)) ∧
    (∀ r ∈ rows, r.totalContribution = r.totalPurchases + r.totalIncentives ∧
      r.owes = (((calcShare db gid f t).getD 0 : Nat) : Int) - (r.totalContribution : Int)) ∧
    (∀ r ∈ rows, ∀ u ∈ db.users, u.uname = r.uname →
      r.totalPurchases =
        (db.memberships.filter (fun m => m.gid == gid && m.uid == u.uid)).length *
          (((purchaseItems db u.uid).filter
            (fun p => decide (f ≤ p.date) && decide (p.date ≤ t))).map (·.amount)).sum) ∧
    (∀ (i : Nat) (r : Settlement) (q : Q2Row),
      rows[i]? = some r → (settleQ2 db gid f t)[i]? = some q →
      r.totalIncentives = q.totalIncentives ∧ r.countIncentives = q.countIncentives) := by
  obtain ⟨hlen, hrows⟩ := calculateSettlements_some db gid f t rows hok
  have hmap : rows.map (·.uname) = (settleQ1 db gid f t).map (·.uname) := by
    rw [hrows, List.map_map]
    have hfst := List.map_fst_zip (settleQ1 db gid f t) (settleQ2 db gid f t) hlen
    calc ((settleQ1 db gid f t).zip (settleQ2 db gid f t)).map
          (fun rr => rr.1.uname)
        = (((settleQ1 db gid f t).zip (settleQ2 db gid f t)).map
            Prod.fst).map (·.uname) := by rw [List.map_map]; rfl
      _ = (settleQ1 db gid f t).map (·.uname) := by rw [hfst]
  refine ⟨?_, ?_, ?_, ?_, ?_, ?_⟩
  · rw [hmap, settleQ1_unames]
    exact List.sorted_insertionSort _ _
  · rw [hmap, settleQ1_unames]
    exact ((List.perm_insertionSort _ _).symm).nodup (List.nodup_dedup _)
  · intro w
    rw [hmap, settleQ1_unames, List.mem_insertionSort, List.mem_dedup,
      mem_groupRows_fst]
    constructor
    · rintro ⟨m, hmm, hmg, u, hfind, huname, hitems⟩
      have humem : u ∈ db.users := List.mem_of_find?_eq_some hfind
      have huid : u.uid = m.uid := by simpa using List.find?_some hfind
      refine ⟨u, humem, huname, ⟨m, hmm, hmg, huid.symm⟩, ?_⟩
      rcases hitems with hnil | ⟨x, hx, hk⟩
      · exact Or.inl hnil
      · exact Or.inr ⟨x, hx, by simpa using hk⟩
    · rintro ⟨u, humem, huname, ⟨m, hmm, hmg, huid⟩, hitems⟩
      have hfind : userByUid db m.uid = some u := by
        unfold userByUid
        rw [huid]
        exact find?_user_by_uid db.users u humem h2
      refine ⟨m, hmm, hmg, u, hfind, huname, ?_⟩
      rcases hitems with hnil | ⟨p, hp, hd1, hd2⟩
      · exact Or.inl hnil
      · exact Or.inr ⟨p, hp, by simp [hd1, hd2]⟩
  · intro r hr
    rw [hrows] at hr
    rcases List.mem_map.mp hr with ⟨rr, hrr, rfl⟩
    refine ⟨rfl, ?_⟩
    rcases hga : groupAgg db gid (purchaseItems db)
        (fun p => decide (f ≤ p.date) && decide (p.date ≤ t)) with _ | ⟨a, l⟩
    · exfalso
      have : settleQ1 db gid f t = [] := by unfold settleQ1; rw [hga]; rfl
      rw [this] at hrr
      cases hrr
    · obtain ⟨tl, htl⟩ : ∃ tl, settleQ1 db gid f t =
          ({ uname := a.1, totalPurchases := (a.2.map (·.amount)).sum,
             countPurchases := a.2.length,
             groupShare := calcShare db gid f t } : Q1Row) :: tl := by
        unfold settleQ1
        rw [hga]
        exact ⟨_, rfl⟩
      rw [htl]
      rfl
  · intro r hr u humem huname
    rw [hrows] at hr
    rcases List.mem_map.mp hr with ⟨rr, hrr, rfl⟩
    have hq1mem : rr.1 ∈ settleQ1 db gid f t := by
      have := List.of_mem_zip (a := rr.1) (b := rr.2) (by simpa using hrr)
      exact this.1
    exact (settleQ1_row db gid f t h1 h2 rr.1 hq1mem u humem huname).2.1
  · intro i r q hri hqi
    rw [hrows, List.getElem?_map] at hri
    cases hz : ((settleQ1 db gid f t).zip (settleQ2 db gid f t))[i]? with
    | none => rw [hz] at hri; cases hri
    | some pair =>
      rw [hz] at hri
      have hq2 : (settleQ2 db gid f t)[i]? = some pair.2 :=
        (List.getElem?_zip_eq_some.mp hz).2
      rw [hqi] at hq2
      have hqeq : q = pair.2 := by injection hq2
      have hreq : r =
          { uname := pair.1.uname,
            totalPurchases := pair.1.totalPurchases,
            countPurchases := pair.1.countPurchases,
            totalIncentives := pair.2.totalIncentives,
            countIncentives := pair.2.countIncentives,
            totalContribution := pair.1.totalPurchases + pair.2.totalIncentives,
            owes := ((match settleQ1 db gid f t with
              | [] => 0
              | r :: _ => r.groupShare.getD 0 : Nat) : Int) -
              ((pair.1.totalPurchases : Int) + (pair.2.totalIncentives : Int)) } := by
        injection hri with hri2
        exact hri2.symm
      rw [hreq, hqeq]
      exact ⟨rfl, rfl⟩

/-- Witness for c5_amended at the two-member store dbShare: the report
has rows for usernames 10 and 20 in ascending order. -/
theorem c5_amended_witness :
    List.Sorted (· ≤ ·) (([
      { uname := 10, totalPurchases := 10199, countPurchases := 1,
        totalIncentives := 0, countIncentives := 0,
        totalContribution := 10199, owes := -5199 },
      { uname := 20, totalPurchases := 0, countPurchases := 0,
        totalIncentives := 0, countIncentives := 0,
        totalContribution := 0, owes := 5000 }] : List Settlement).map (·.uname)) :=
  (c5_amended dbShare 1 20230601 20230630 _ (by decide) (by decide) rfl).1

end RoommatePortal
